import Mathlib

/-!
Verification of the mechanical merge-conflict resolution engine of the
beads issue tracker (Go file defining `resolve-conflicts`: detectConflicts,
resolveConflictsMechanical, applyResolutions, getNextAvailableID,
remapTextReferences).

The Go code is embedded shallowly: lines are Lean `String`s, the scanner and
reconstructor are explicit fold-based state machines over the line list, and
the Go standard-library string operations used by the code (TrimSpace,
HasPrefix, Split, Join, ReplaceAll, Sscanf of a leading decimal number,
Sprintf of an id) are re-implemented on `List Char`.

The `types.Issue` record type and its JSON round-trip are not part of the
analysed sources (only their callers are); they are modelled from the spec's
minimal schema, see `Issue`, `parseIssue`, `serializeIssue` below.
-/

set_option maxRecDepth 10000

namespace Beads

/-! ## Go string primitives, re-implemented on character lists -/

/-- Characters treated as whitespace by the model of `strings.TrimSpace`
(ASCII subset; the inputs considered here are ASCII). -/
def isSpc (c : Char) : Bool :=
  c = ' ' || c = '\t' || c = '\n' || c = '\r' || c = '\x0b' || c = '\x0c'

/-- Model of Go `strings.TrimSpace` on a character list. -/
def trimChars (cs : List Char) : List Char :=
  ((cs.dropWhile isSpc).reverse.dropWhile isSpc).reverse

/-- Model of Go `strings.TrimSpace`. -/
def trimS (s : String) : String := String.mk (trimChars s.data)

/-- Model of Go `strings.HasPrefix` on character lists. -/
def pfx : List Char → List Char → Bool
  | [], _ => true
  | _ :: _, [] => false
  | a :: as, b :: bs => a = b && pfx as bs

/-- Model of Go `strings.HasPrefix`. -/
def pfxS (p s : String) : Bool := pfx p.data s.data

/-- Split a character list on every occurrence of a separator character,
as Go `strings.Split` with a one-character separator does. -/
def splitOnCh (sep : Char) : List Char → List Char → List (List Char)
  | [], acc => [acc.reverse]
  | c :: rest, acc =>
    if c = sep then acc.reverse :: splitOnCh sep rest []
    else splitOnCh sep rest (c :: acc)

/-- Model of Go `strings.Split(s, sep)` for a one-character separator. -/
def splitS (sep : Char) (s : String) : List String :=
  (splitOnCh sep s.data []).map String.mk

/-- Model of Go `strings.Join(parts, sep)`. -/
def joinWith (sep : String) : List String → String
  | [] => ""
  | x :: xs => xs.foldl (fun a b => a ++ sep ++ b) x

/-- One fuel-indexed step list of Go `strings.ReplaceAll` for a non-empty
pattern: replace the leftmost occurrence and continue after the replacement. -/
def raAux (old nw : List Char) : Nat → List Char → List Char
  | 0, s => s
  | _ + 1, [] => []
  | f + 1, s@(c :: rest) =>
    if pfx old s then nw ++ raAux old nw f (s.drop old.length)
    else c :: raAux old nw f rest

/-- Model of Go `strings.ReplaceAll(s, old, nw)`, including the empty-pattern
case (the replacement is inserted before every character and at the end). -/
def replaceAllC (old nw s : List Char) : List Char :=
  match old with
  | [] => nw ++ s.foldr (fun c acc => c :: (nw ++ acc)) []
  | _ :: _ => raAux old nw s.length s

/-- Model of Go `strings.ReplaceAll` on strings. -/
def replaceAllS (old nw s : String) : String :=
  String.mk (replaceAllC old.data nw.data s.data)

/-- Whether a character list occurs as a contiguous sublist of another. -/
def subOcc (n : List Char) : List Char → Bool
  | [] => pfx n []
  | h@(_ :: t) => pfx n h || subOcc n t

/-- Whether a string occurs as a literal substring of another
(model of Go `strings.Contains`). -/
def containsSubS (n hay : String) : Bool := subOcc n.data hay.data

/-- Decimal digit test on a character. -/
def isDig (c : Char) : Bool := 48 ≤ c.toNat && c.toNat ≤ 57

/-- Model of Go `fmt.Sscanf(s, "%d", &num)` as used on an id suffix: the value
of the leading run of decimal digits, and 0 when there is none (the Go code
ignores the scan error, leaving `num` at its zero value). -/
def parseLeadNat (s : String) : Nat :=
  (s.data.takeWhile isDig).foldl (fun a c => a * 10 + (c.toNat - 48)) 0

/-- Decimal digits of a natural number, fuel-indexed. -/
def natToStrAux : Nat → Nat → List Char
  | 0, _ => []
  | f + 1, n =>
    if n < 10 then [Char.ofNat (48 + n)]
    else natToStrAux f (n / 10) ++ [Char.ofNat (48 + n % 10)]

/-- Decimal rendering of a natural number, as Go `fmt.Sprintf("%d", n)`. -/
def natToStr (n : Nat) : String := String.mk (natToStrAux (n + 1) n)

/-! ## The record model

Modelled from the spec: the `types.Issue` declaration is not among the
analysed sources (only its callers are).  The spec's minimal record schema is
an `id`, a `title`, the four free-text fields `description`, `design`,
`acceptance_criteria`, `notes`, and an ordered `dependencies` list of edges
carrying `depends_on_id` and `relation_type`. -/

/-- Modelled from the spec: one dependency edge of a record. -/
structure Dependency where
  dependsOnID : String := ""
  relationType : String := ""
  deriving DecidableEq, Repr, Inhabited

/-- Modelled from the spec: the record schema recognized by the engine. -/
structure Issue where
  id : String := ""
  title : String := ""
  description : String := ""
  design : String := ""
  acceptanceCriteria : String := ""
  notes : String := ""
  dependencies : List Dependency := []
  deriving DecidableEq, Repr, Inhabited

/-- A record carrying only an id, used for concrete test inputs. -/
def mkIssue (i : String) : Issue := { id := i }

/-! ## The JSON round-trip of a record line

Modelled from the spec: the engine stores records as one compact JSON object
per line and decodes them with a typed unmarshal (`json.Unmarshal` into the
record struct) whose behaviour this parser mirrors on a JSON subset — compact
objects, string and number and flat-object-array values, no escape sequences:
keys outside the schema are accepted and discarded, a schema key bound to a
value of the wrong shape makes the whole line unparseable, a repeated key
keeps its last binding, and a line with trailing characters after the object
is unparseable. -/

/-- The opening brace character. -/
def lbr : Char := Char.ofNat 123

/-- The closing brace character. -/
def rbr : Char := Char.ofNat 125

/-- The double-quote character. -/
def qc : Char := Char.ofNat 34

/-- Read the body of a string literal after its opening quote: the content up
to the next quote, and the remainder after it. -/
def takeStr : List Char → List Char → Option (List Char × List Char)
  | [], _ => none
  | c :: rest, acc =>
    if c = qc then some (acc.reverse, rest) else takeStr rest (c :: acc)

/-- Parse a JSON string literal at the head of the input. -/
def parseJStr (cs : List Char) : Option (String × List Char) :=
  match cs with
  | c :: rest =>
    if c = qc then (takeStr rest []).map (fun p => (String.mk p.1, p.2)) else none
  | [] => none

/-- Parse a JSON natural-number literal at the head of the input. -/
def parseJNum (cs : List Char) : Option (Nat × List Char) :=
  let ds := cs.takeWhile isDig
  match ds with
  | [] => none
  | _ :: _ =>
    some (ds.foldl (fun a c => a * 10 + (c.toNat - 48)) 0, cs.dropWhile isDig)

/-- Parse the pair list of a flat string-valued object, after its opening
brace; fuel-indexed, one pair consumed per step. -/
def parseStrPairs : Nat → List Char → List (String × String) →
    Option (List (String × String) × List Char)
  | 0, _, _ => none
  | f + 1, cs, acc =>
    match parseJStr cs with
    | none => none
    | some (k, rest) =>
      match rest with
      | ':' :: rest2 =>
        match parseJStr rest2 with
        | none => none
        | some (v, rest3) =>
          match rest3 with
          | ',' :: rest4 => parseStrPairs f rest4 (acc ++ [(k, v)])
          | c :: rest4 => if c = rbr then some (acc ++ [(k, v)], rest4) else none
          | [] => none
      | _ => none

/-- Parse one flat string-valued object (a dependency edge). -/
def parseDepObj (cs : List Char) : Option (List (String × String) × List Char) :=
  match cs with
  | c :: rest =>
    if c = lbr then
      match rest with
      | c2 :: rest2 =>
        if c2 = rbr then some ([], rest2) else parseStrPairs (rest.length + 1) rest []
      | [] => none
    else none
  | [] => none

/-- Parse the comma-separated items of an array of flat objects, after its
opening bracket; fuel-indexed. -/
def parseDepItems : Nat → List Char → List (List (String × String)) →
    Option (List (List (String × String)) × List Char)
  | 0, _, _ => none
  | f + 1, cs, acc =>
    match parseDepObj cs with
    | none => none
    | some (obj, rest) =>
      match rest with
      | ',' :: rest2 => parseDepItems f rest2 (acc ++ [obj])
      | ']' :: rest2 => some (acc ++ [obj], rest2)
      | _ => none

/-- A JSON value of the modelled subset. -/
inductive JVal where
  | vs (s : String)
  | vn (n : Nat)
  | vb (b : Bool)
  | vnull
  | va (objs : List (List (String × String)))
  deriving DecidableEq, Repr

/-- Parse one JSON value of the modelled subset. -/
def parseJVal (cs : List Char) : Option (JVal × List Char) :=
  match cs with
  | [] => none
  | c :: rest =>
    if c = qc then (parseJStr cs).map (fun p => (JVal.vs p.1, p.2))
    else if c = '[' then
      match rest with
      | c2 :: rest2 =>
        if c2 = ']' then some (JVal.va [], rest2)
        else (parseDepItems (rest.length + 1) rest []).map (fun p => (JVal.va p.1, p.2))
      | [] => none
    else if isDig c then (parseJNum cs).map (fun p => (JVal.vn p.1, p.2))
    else if pfx "true".data cs then some (JVal.vb true, cs.drop 4)
    else if pfx "false".data cs then some (JVal.vb false, cs.drop 5)
    else if pfx "null".data cs then some (JVal.vnull, cs.drop 4)
    else none

/-- Parse the pair list of the top-level object, after its opening brace;
fuel-indexed. -/
def parseTopPairs : Nat → List Char → List (String × JVal) →
    Option (List (String × JVal) × List Char)
  | 0, _, _ => none
  | f + 1, cs, acc =>
    match parseJStr cs with
    | none => none
    | some (k, rest) =>
      match rest with
      | ':' :: rest2 =>
        match parseJVal rest2 with
        | none => none
        | some (v, rest3) =>
          match rest3 with
          | ',' :: rest4 => parseTopPairs f rest4 (acc ++ [(k, v)])
          | c :: rest4 => if c = rbr then some (acc ++ [(k, v)], rest4) else none
          | [] => none
      | _ => none

/-- Parse a whole line as a top-level JSON object; trailing characters after
the closing brace make the parse fail, as `json.Unmarshal` does. -/
def parseTop (cs : List Char) : Option (List (String × JVal)) :=
  match cs with
  | c :: rest =>
    if c = lbr then
      match rest with
      | c2 :: rest2 =>
        if c2 = rbr then (if rest2 = [] then some [] else none)
        else
          match parseTopPairs (rest.length + 1) rest [] with
          | some (ps, []) => some ps
          | _ => none
      | [] => none
    else none
  | [] => none

/-- Fold one flat string object into a dependency edge; keys outside the edge
schema are discarded, a repeated key keeps its last binding. -/
def decodeDep (obj : List (String × String)) : Dependency :=
  obj.foldl
    (fun d p =>
      if p.1 = "depends_on_id" then { d with dependsOnID := p.2 }
      else if p.1 = "relation_type" then { d with relationType := p.2 }
      else d)
    {}

/-- Fold the top-level pair list into a record: schema keys must carry a value
of the right shape (otherwise the whole decode fails, as a typed unmarshal
does), keys outside the schema are discarded. -/
def decodeIssue (ps : List (String × JVal)) : Option Issue :=
  ps.foldl
    (fun acc p =>
      acc.bind fun i =>
        if p.1 = "id" then
          match p.2 with | JVal.vs s => some { i with id := s } | _ => none
        else if p.1 = "title" then
          match p.2 with | JVal.vs s => some { i with title := s } | _ => none
        else if p.1 = "description" then
          match p.2 with | JVal.vs s => some { i with description := s } | _ => none
        else if p.1 = "design" then
          match p.2 with | JVal.vs s => some { i with design := s } | _ => none
        else if p.1 = "acceptance_criteria" then
          match p.2 with | JVal.vs s => some { i with acceptanceCriteria := s } | _ => none
        else if p.1 = "notes" then
          match p.2 with | JVal.vs s => some { i with notes := s } | _ => none
        else if p.1 = "dependencies" then
          match p.2 with
          | JVal.va objs => some { i with dependencies := objs.map decodeDep }
          | _ => none
        else some i)
    (some {})

/-- Parse one line as a record, modelling `json.Unmarshal(line, &issue)`. -/
def parseIssue (s : String) : Option Issue :=
  match parseTop s.data with
  | some ps => decodeIssue ps
  | none => none

/-- Quote a string as a JSON literal (the modelled fields contain no
characters that would need escaping). -/
def qstr (s : String) : List Char := qc :: (s.data ++ [qc])

/-- Serialized form of one key/string-value pair. -/
def serFld (k v : String) : List Char := qstr k ++ ':' :: qstr v

/-- Serialized form of a dependency edge. -/
def serDep (d : Dependency) : List Char :=
  lbr :: (serFld "depends_on_id" d.dependsOnID ++ ',' ::
    serFld "relation_type" d.relationType) ++ [rbr]

/-- Interpose a character between serialized items. -/
def joinCh (sep : Char) : List (List Char) → List Char
  | [] => []
  | x :: xs => xs.foldl (fun a b => a ++ sep :: b) x

/-- Serialize a record back to one compact JSON line, modelling
`json.Marshal(issue)`: exactly the schema fields, in schema order — nothing
the decoder discarded can reappear here. -/
def serializeIssue (i : Issue) : String :=
  String.mk
    (lbr :: (serFld "id" i.id ++ ',' :: serFld "title" i.title ++ ',' ::
      serFld "description" i.description ++ ',' :: serFld "design" i.design ++ ',' ::
      serFld "acceptance_criteria" i.acceptanceCriteria ++ ',' ::
      serFld "notes" i.notes ++ ',' :: qstr "dependencies" ++ ':' ::
      '[' :: joinCh ',' (i.dependencies.map serDep) ++ [']']) ++ [rbr])

/-! ## Conflict blocks and resolutions (`ConflictBlock`, `Resolution`) -/

/-- A git merge conflict section, as in the Go `ConflictBlock` struct. -/
structure ConflictBlock where
  headIssues : List Issue := []
  baseIssues : List Issue := []
  lineStart : Nat := 0
  lineEnd : Nat := 0
  deriving DecidableEq, Repr, Inhabited

/-- How to resolve a conflict, as in the Go `Resolution` struct; the action is
the string tag "keep" or "remap" the code uses. -/
structure Resolution where
  action : String := ""
  issueID : String := ""
  oldID : String := ""
  newID : String := ""
  reason : String := ""
  deriving DecidableEq, Repr, Inhabited

/-! ## Identifier allocation (`getNextAvailableID`)

The storage backend is external; it is modelled as an optional list of all
stored issues — `none` models the failing source (`store == nil` or a search
error), `some issues` a successful `store.SearchIssues` returning `issues`. -/

/-- Last element of a list of strings, empty when the list is empty. -/
def lastD : List String → String
  | [] => ""
  | [x] => x
  | _ :: y :: xs => lastD (y :: xs)

/-- All elements of a list but the last. -/
def dropLastS (l : List String) : List String := l.dropLast

/-- The pure computation inside `getNextAvailableID` on a successful store
scan: fold every stored id of shape `pfx-number`, recording the first such
id's dash-joined stem and the maximal numeric suffix, then render
`stem-(max+1)` (stem `bd` when no stored id had a dash). -/
def nextIDOf (allIssues : List Issue) : String :=
  let st :=
    allIssues.foldl
      (fun (acc : Nat × String) issue =>
        let parts := splitS '-' issue.id
        if 2 ≤ parts.length then
          let p := if acc.2 = "" then joinWith "-" (dropLastS parts) else acc.2
          let num := parseLeadNat (lastD parts)
          (if acc.1 < num then num else acc.1, p)
        else acc)
      (0, "")
  let p := if st.2 = "" then "bd" else st.2
  p ++ "-" ++ natToStr (st.1 + 1)

/-- Model of `getNextAvailableID`: fails when the store is unavailable,
otherwise returns the successor of the namespace's high-water mark.  Each call
re-scans the same store, so repeated calls in one run return the same id. -/
def getNextAvailableID (store : Option (List Issue)) : Except String String :=
  match store with
  | none => Except.error "store not initialized"
  | some allIssues => Except.ok (nextIDOf allIssues)

/-! ## The mechanical resolver (`resolveConflictsMechanical`) -/

/-- Mark an id as claimed (model of `headIDs[id] = true`; only membership is
ever queried, so a duplicate insertion is dropped). -/
def insertMem (l : List String) (x : String) : List String :=
  if x ∈ l then l else l ++ [x]

/-- Resolver state: the claimed-id set and the resolutions emitted so far. -/
abbrev RState := List String × List Resolution

/-- First pass of the resolver over the head issues of one block: every head
issue is kept and its id claimed. -/
def pass1I : RState → List Issue → RState
  | s, [] => s
  | (claimed, rs), i :: is =>
    pass1I (insertMem claimed i.id,
      rs ++ [{ action := "keep", issueID := i.id, reason := "HEAD version" }]) is

/-- First pass of the resolver over all blocks. -/
def pass1B : RState → List ConflictBlock → RState
  | s, [] => s
  | s, cb :: cbs => pass1B (pass1I s cb.headIssues) cbs

/-- Second pass of the resolver, one base issue: on an id collision a fresh id
is requested from the store (failing the whole run if the store fails), the
issue is remapped to it and the fresh id is claimed; otherwise the issue is
kept and its id claimed. -/
def pass2Issue (store : Option (List Issue)) (s : RState) (i : Issue) :
    Except String RState :=
  if i.id ∈ s.1 then
    match getNextAvailableID store with
    | Except.error e => Except.error ("failed to get next ID: " ++ e)
    | Except.ok newID =>
      Except.ok (insertMem s.1 newID,
        s.2 ++ [{ action := "remap", oldID := i.id, newID := newID,
                  reason := "ID " ++ i.id ++ " exists in both HEAD and BASE" }])
  else
    Except.ok (insertMem s.1 i.id,
      s.2 ++ [{ action := "keep", issueID := i.id, reason := "No collision" }])

/-- Second pass over the base issues of one block. -/
def pass2I (store : Option (List Issue)) : RState → List Issue →
    Except String RState
  | s, [] => Except.ok s
  | s, i :: is =>
    match pass2Issue store s i with
    | Except.error e => Except.error e
    | Except.ok s' => pass2I store s' is

/-- Second pass over all blocks. -/
def pass2B (store : Option (List Issue)) : RState → List ConflictBlock →
    Except String RState
  | s, [] => Except.ok s
  | s, cb :: cbs =>
    match pass2I store s cb.baseIssues with
    | Except.error e => Except.error e
    | Except.ok s' => pass2B store s' cbs

/-- Model of `resolveConflictsMechanical`: claim and keep every head issue
across all blocks, then walk every base issue across all blocks, remapping the
ones whose id is already claimed. -/
def resolveConflictsMechanical (store : Option (List Issue))
    (conflicts : List ConflictBlock) : Except String (List Resolution) :=
  let s1 := pass1B ([], []) conflicts
  match pass2B store s1 conflicts with
  | Except.error e => Except.error e
  | Except.ok s2 => Except.ok s2.2

/-! ## Reference rewriting (`remapTextReferences` and the per-record rewrite
inside `applyResolutions`) -/

/-- The remap table; the Go code uses `map[string]string`, modelled as an
association list with unique keys.  Go iterates a map in unspecified order;
the model iterates in list order, and no settled claim depends on the
iteration order beyond single-entry tables. -/
abbrev Table := List (String × String)

/-- Model of the Go map lookup `remapTable[id]`. -/
def lookupTab (t : Table) (k : String) : Option String :=
  match t with
  | [] => none
  | p :: rest => if p.1 = k then some p.2 else lookupTab rest k

/-- Model of the Go map assignment `remapTable[k] = v`: replace the value of
an existing key, otherwise append the binding. -/
def insertGo (t : Table) (k v : String) : Table :=
  if t.any (fun p => p.1 = k) then
    t.map (fun p => if p.1 = k then (k, v) else p)
  else t ++ [(k, v)]

/-- The remap table built at the top of `applyResolutions`: one map assignment
per "remap" resolution, in list order. -/
def buildRemapTable (rs : List Resolution) : Table :=
  rs.foldl (fun t r => if r.action = "remap" then insertGo t r.oldID r.newID else t) []

/-- Model of `remapTextReferences`: literal substring replacement of every
table entry, applied sequentially over the table. -/
def remapTextReferences (text : String) (t : Table) : String :=
  t.foldl (fun s p => replaceAllS p.1 p.2 s) text

/-- Rewrite one dependency edge: the target is replaced exactly when it is a
key of the table. -/
def rewriteDep (t : Table) (d : Dependency) : Dependency :=
  match lookupTab t d.dependsOnID with
  | some n => { d with dependsOnID := n }
  | none => d

/-- The reference rewrite applied to every parsed record: dependency targets
by exact lookup, the four free-text fields by substring replacement. -/
def rewriteRefs (t : Table) (i : Issue) : Issue :=
  { i with
    dependencies := i.dependencies.map (rewriteDep t)
    description := remapTextReferences i.description t
    design := remapTextReferences i.design t
    acceptanceCriteria := remapTextReferences i.acceptanceCriteria t
    notes := remapTextReferences i.notes t }

/-- The rewrite applied to a record parsed inside a conflict region: its own
id is remapped when it is a key of the table, then references are rewritten.
The code applies this to every in-region record, head side included. -/
def rewriteRecord (t : Table) (i : Issue) : Issue :=
  rewriteRefs t
    (match lookupTab t i.id with
     | some n => { i with id := n }
     | none => i)

/-- The rewrite applied to a record parsed outside every conflict region,
with the `modified` flag the code computes: a dependency lookup hit sets the
flag even when the looked-up value equals the old target, a text field sets it
only when the replacement changed the field. -/
def rewriteOutside (t : Table) (i : Issue) : Issue × Bool :=
  let dMod := i.dependencies.any (fun d => (lookupTab t d.dependsOnID).isSome)
  let desc := remapTextReferences i.description t
  let desg := remapTextReferences i.design t
  let acc := remapTextReferences i.acceptanceCriteria t
  let nts := remapTextReferences i.notes t
  ({ i with
      dependencies := i.dependencies.map (rewriteDep t)
      description := desc, design := desg, acceptanceCriteria := acc, notes := nts },
    dMod || decide (desc ≠ i.description) || decide (desg ≠ i.design) ||
      decide (acc ≠ i.acceptanceCriteria) || decide (nts ≠ i.notes))

/-! ## The conflict scanner (`detectConflicts`) -/

/-- Scanner state: regions sealed so far, the region being built, whether the
walk is inside a region and on its head side, and the current line number. -/
structure ScanState where
  conflicts : List ConflictBlock := []
  current : Option ConflictBlock := none
  inConflict : Bool := false
  inHead : Bool := false
  lineNum : Nat := 0
  deriving DecidableEq, Repr, Inhabited

/-- One line of the scanner walk of `detectConflicts`: trim the line, count
it, skip it if blank, then the marker switch — a `<<<<<<<`-prefixed line opens
a region, a `=======`-prefixed line switches to the base side when inside a
region, a `>>>>>>>`-prefixed line seals the region when inside one, and any
other line is attempted as a record when inside a region and not starting
with `<`, `=` or `>`, populating the current side; parse failures and
everything outside a region are dropped. -/
def detectStep (st : ScanState) (line : String) : ScanState :=
  let t := trimS line
  let n := st.lineNum + 1
  if t = "" then { st with lineNum := n }
  else if pfxS "<<<<<<<" t then
    { st with
      lineNum := n
      inConflict := true
      inHead := true
      current := some { lineStart := n } }
  else if pfxS "=======" t then
    if st.inConflict then { st with lineNum := n, inHead := false }
    else { st with lineNum := n }
  else if pfxS ">>>>>>>" t then
    if st.inConflict then
      match st.current with
      | some c =>
        { st with
          lineNum := n
          inConflict := false
          current := none
          conflicts := st.conflicts ++ [{ c with lineEnd := n }] }
      | none => { st with lineNum := n, inConflict := false }
    else { st with lineNum := n }
  else if st.inConflict && !pfxS "<" t && !pfxS "=" t && !pfxS ">" t then
    match parseIssue t with
    | some issue =>
      match st.current with
      | some c =>
        { st with
          lineNum := n
          current := some
            (if st.inHead then { c with headIssues := c.headIssues ++ [issue] }
             else { c with baseIssues := c.baseIssues ++ [issue] }) }
      | none => { st with lineNum := n }
    | none => { st with lineNum := n }
  else { st with lineNum := n }

/-- Model of `detectConflicts` on the file's line list: walk every line and
return the sealed regions; an unclosed region is discarded with the state. -/
def detectConflicts (lines : List String) : List ConflictBlock :=
  (lines.foldl detectStep {}).conflicts

/-! ## The file reconstructor (`applyResolutions`) -/

/-- Reconstructor state: the output lines emitted so far, the buffered
replacement content of the region being walked, and whether the walk is
inside a region. -/
structure ApplyState where
  out : List String := []
  buf : List String := []
  inConflict : Bool := false
  deriving DecidableEq, Repr, Inhabited

/-- The replacement content one in-region line contributes: a non-blank line
that parses as a record is re-serialized after the in-region rewrite, every
other in-region line contributes nothing. -/
def regionEmit (t : Table) (tr : String) : Option String :=
  if tr = "" then none
  else
    match parseIssue tr with
    | some issue => some (serializeIssue (rewriteRecord t issue))
    | none => none

/-- The line an outside line becomes: a non-blank line not starting with `<`,
`=` or `>` that parses as a record is re-serialized when the rewrite flag is
set and kept verbatim otherwise; every other outside line is kept verbatim. -/
def outsideEmit (t : Table) (line : String) : String :=
  let tr := trimS line
  if tr ≠ "" && !pfxS "<" tr && !pfxS "=" tr && !pfxS ">" tr then
    match parseIssue tr with
    | some issue =>
      let r := rewriteOutside t issue
      if r.2 then serializeIssue r.1 else line
    | none => line
  else line

/-- One line of the reconstructor walk of `applyResolutions`: an open-marker
line enters a region and clears the buffer, a close-marker line flushes the
buffer into the output and leaves the region, a divider line is dropped, an
in-region line contributes its replacement content to the buffer, and an
outside line is emitted via `outsideEmit`.  The three marker tests are prefix
tests on the trimmed line and are checked before the region state. -/
def applyStep (t : Table) (st : ApplyState) (line : String) : ApplyState :=
  let tr := trimS line
  if pfxS "<<<<<<<" tr then { st with inConflict := true, buf := [] }
  else if pfxS ">>>>>>>" tr then
    { out := st.out ++ st.buf, buf := [], inConflict := false }
  else if pfxS "=======" tr then st
  else if st.inConflict then
    match regionEmit t tr with
    | some s => { st with buf := st.buf ++ [s] }
    | none => st
  else { st with out := st.out ++ [outsideEmit t line] }

/-- Model of the line walk of `applyResolutions`: build the remap table from
the resolutions, walk every line, and return the emitted output lines; a
buffer still pending at end of file is discarded with the state. -/
def applyResolutions (rs : List Resolution) (lines : List String) : List String :=
  (lines.foldl (applyStep (buildRemapTable rs)) {}).out

/-! ## The resolve-and-apply entry point (`resolveConflictsCmd`, `--auto`) -/

/-- Split file content into lines, as `strings.Split(content, "\n")`. -/
def splitLinesS (content : String) : List String := splitS '\n' content

/-- Join output lines back into file content, as `strings.Join(lines, "\n")`. -/
def joinLinesS (lines : List String) : String := joinWith "\n" lines

/-- Model of the `--auto` path of the command: detect conflicts and return the
file content unchanged when there are none; resolve mechanically and return
the content unchanged when resolution fails (the command exits before any
write); otherwise write the reconstructed content. -/
def resolveConflictsRun (store : Option (List Issue)) (content : String) : String :=
  let lines := splitLinesS content
  let conflicts := detectConflicts lines
  if conflicts = [] then content
  else
    match resolveConflictsMechanical store conflicts with
    | Except.error _ => content
    | Except.ok rs => joinLinesS (applyResolutions rs lines)

/-! ## Concrete inputs used by the settled claims -/

/-- A conflict block whose two base issues both collide with head issues. -/
def twoCollisionBlock : ConflictBlock :=
  { headIssues := [mkIssue "bd-1", mkIssue "bd-2"]
    baseIssues := [mkIssue "bd-1", mkIssue "bd-2"]
    lineStart := 1
    lineEnd := 6 }

/-- A conflicted file whose head and base sides both carry the id `bd-1`. -/
def collisionFile : String :=
  "<<<<<<< HEAD\n\x7b\"id\":\"bd-1\",\"title\":\"H\"\x7d\n=======\n" ++
    "\x7b\"id\":\"bd-1\",\"title\":\"B\"\x7d\n>>>>>>> other"

end Beads

namespace Beads

/-! ## Helper lemmas on prefixes, markers and parsing -/

theorem pfx_head_eq {a : Char} {as s : List Char} (h : pfx (a :: as) s = true) :
    s.head? = some a := by
  cases s with
  | nil => simp [pfx] at h
  | cons b bs =>
    simp only [pfx, Bool.and_eq_true, decide_eq_true_eq] at h
    simp [h.1]

theorem pfx_head_ne {a b : Char} (hab : b ≠ a) {as bs s : List Char}
    (h : pfx (a :: as) s = true) : pfx (b :: bs) s = false := by
  cases s with
  | nil => simp [pfx] at h
  | cons c cs =>
    simp only [pfx, Bool.and_eq_true, decide_eq_true_eq] at h
    simp only [pfx, Bool.and_eq_false_iff]
    left
    simp only [decide_eq_false_iff_not]
    rw [← h.1]
    exact hab

theorem pfx_nonempty {a : Char} {as s : List Char} (h : pfx (a :: as) s = true) :
    s ≠ [] := by
  cases s with
  | nil => simp [pfx] at h
  | cons c cs => exact fun hx => List.noConfusion hx

/-- Decomposition of the divider marker into head and tail characters. -/
theorem divM_cons : ("=======" : String).data = '=' :: ("======" : String).data := rfl

/-- Decomposition of the open marker into head and tail characters. -/
theorem openM_cons : ("<<<<<<<" : String).data = '<' :: ("<<<<<<" : String).data := rfl

/-- Decomposition of the close marker into head and tail characters. -/
theorem closeM_cons : (">>>>>>>" : String).data = '>' :: (">>>>>>" : String).data := rfl

theorem div_not_open {t : String} (h : pfxS "=======" t = true) :
    pfxS "<<<<<<<" t = false := by
  unfold pfxS at h ⊢
  rw [divM_cons] at h
  rw [openM_cons]
  exact pfx_head_ne (by decide) h

theorem div_not_close {t : String} (h : pfxS "=======" t = true) :
    pfxS ">>>>>>>" t = false := by
  unfold pfxS at h ⊢
  rw [divM_cons] at h
  rw [closeM_cons]
  exact pfx_head_ne (by decide) h

theorem open_not_div {t : String} (h : pfxS "<<<<<<<" t = true) :
    pfxS "=======" t = false := by
  unfold pfxS at h ⊢
  rw [openM_cons] at h
  rw [divM_cons]
  exact pfx_head_ne (by decide) h

theorem close_not_div {t : String} (h : pfxS ">>>>>>>" t = true) :
    pfxS "=======" t = false := by
  unfold pfxS at h ⊢
  rw [closeM_cons] at h
  rw [divM_cons]
  exact pfx_head_ne (by decide) h

theorem div_ne_empty {t : String} (h : pfxS "=======" t = true) : t ≠ "" := by
  unfold pfxS at h
  rw [divM_cons] at h
  intro he
  rw [he] at h
  simp [pfx] at h

/-- A line that parses as a record starts with the opening brace. -/
theorem parseIssue_head {s : String} {i : Issue} (h : parseIssue s = some i) :
    s.data.head? = some lbr := by
  unfold parseIssue at h
  cases hs : s.data with
  | nil => rw [hs] at h; simp [parseTop] at h
  | cons c cs =>
    rw [hs] at h
    by_cases hc : c = lbr
    · simp [hc]
    · simp only [parseTop, if_neg hc] at h
      exact absurd h (by simp)

/-- The empty line does not parse as a record. -/
theorem parseIssue_empty : parseIssue "" = none := rfl

/-- A line that parses as a record is non-blank and does not begin with `<`,
`=` or `>` — the gate condition of the outside branch holds for it. -/
theorem parseIssue_outside_cond {s : String} {i : Issue}
    (hp : parseIssue s = some i) :
    (s ≠ "" && !pfxS "<" s && !pfxS "=" s && !pfxS ">" s) = true := by
  have hhead := parseIssue_head hp
  cases hd : s.data with
  | nil =>
    rw [hd] at hhead
    simp at hhead
  | cons c cs =>
    rw [hd] at hhead
    have hcl : c = lbr := by
      simp only [List.head?] at hhead
      injection hhead
    have hne : s ≠ "" := by
      intro he
      rw [he] at hd
      cases hd
    have h1 : pfxS "<" s = false := by
      unfold pfxS
      rw [hd]
      show pfx ('<' :: ("" : String).data) (c :: cs) = false
      simp only [pfx]
      rw [hcl]
      simp [lbr]
    have h2 : pfxS "=" s = false := by
      unfold pfxS
      rw [hd]
      show pfx ('=' :: ("" : String).data) (c :: cs) = false
      simp only [pfx]
      rw [hcl]
      simp [lbr]
    have h3 : pfxS ">" s = false := by
      unfold pfxS
      rw [hd]
      show pfx ('>' :: ("" : String).data) (c :: cs) = false
      simp only [pfx]
      rw [hcl]
      simp [lbr]
    simp [hne, h1, h2, h3]

/-- The line an outside line that parses as a record becomes: the raw line
when the rewrite flag is clear, the re-serialized rewritten record when it is
set. -/
theorem outsideEmit_parsed (t : Table) (line : String) {i : Issue}
    (hp : parseIssue (trimS line) = some i) :
    outsideEmit t line =
      (if (rewriteOutside t i).2 then serializeIssue (rewriteOutside t i).1
       else line) := by
  unfold outsideEmit
  rw [if_pos (parseIssue_outside_cond hp), hp]

/-- The in-region replacement content of a line is a function of its parse
alone. -/
theorem regionEmit_eq_map (t : Table) (l : String) :
    regionEmit t l = (parseIssue l).map (fun i => serializeIssue (rewriteRecord t i)) := by
  unfold regionEmit
  by_cases h : l = ""
  · subst h
    rw [if_pos rfl, parseIssue_empty]
    rfl
  · rw [if_neg h]
    cases parseIssue l <;> rfl

/-! ## Step and fold lemmas for the two line walks -/

/-- A line whose trimmed form begins with none of the three conflict
markers. -/
def markerFree (l : String) : Bool :=
  !pfxS "<<<<<<<" (trimS l) && !pfxS "=======" (trimS l) && !pfxS ">>>>>>>" (trimS l)

theorem detectStep_plain {l : String} (st : ScanState) (hm : markerFree l = true)
    (hc : st.inConflict = false) :
    detectStep st l = { st with lineNum := st.lineNum + 1 } := by
  simp only [markerFree, Bool.and_eq_true, Bool.not_eq_true'] at hm
  obtain ⟨⟨h1, h2⟩, h3⟩ := hm
  unfold detectStep
  by_cases h0 : trimS l = ""
  · rw [if_pos h0]
  · rw [if_neg h0, h1, h2, h3, hc]
    simp

theorem foldl_detect_plain (lines : List String) (st : ScanState)
    (hm : ∀ l ∈ lines, markerFree l = true) (hc : st.inConflict = false) :
    (lines.foldl detectStep st).conflicts = st.conflicts ∧
      (lines.foldl detectStep st).inConflict = false := by
  induction lines generalizing st with
  | nil => exact ⟨rfl, hc⟩
  | cons l ls ih =>
    rw [List.foldl_cons, detectStep_plain st (hm l (List.mem_cons_self l ls)) hc]
    exact ih _ (fun x hx => hm x (List.mem_cons_of_mem l hx)) hc

theorem detectStep_conflicts_noclose {l : String} (st : ScanState)
    (h : pfxS ">>>>>>>" (trimS l) = false) :
    (detectStep st l).conflicts = st.conflicts := by
  unfold detectStep
  by_cases h0 : trimS l = ""
  · rw [if_pos h0]
  · rw [if_neg h0]
    by_cases ho : pfxS "<<<<<<<" (trimS l) = true
    · rw [if_pos ho]
    · rw [if_neg ho]
      by_cases hd : pfxS "=======" (trimS l) = true
      · rw [if_pos hd]
        by_cases hic : st.inConflict = true <;> simp [hic]
      · rw [if_neg hd, h]
        simp only [Bool.false_eq_true, if_false]
        by_cases hr : (st.inConflict && !pfxS "<" (trimS l) &&
            !pfxS "=" (trimS l) && !pfxS ">" (trimS l)) = true
        · rw [if_pos hr]
          cases parseIssue (trimS l) <;> cases st.current <;> simp
        · rw [if_neg hr]

theorem foldl_detect_noclose (lines : List String) (st : ScanState)
    (h : ∀ l ∈ lines, pfxS ">>>>>>>" (trimS l) = false) :
    (lines.foldl detectStep st).conflicts = st.conflicts := by
  induction lines generalizing st with
  | nil => rfl
  | cons l ls ih =>
    rw [List.foldl_cons]
    rw [ih _ (fun x hx => h x (List.mem_cons_of_mem l hx))]
    exact detectStep_conflicts_noclose st (h l (List.mem_cons_self l ls))

theorem applyStep_outside {l : String} (t : Table) (st : ApplyState)
    (hm : markerFree l = true) (hc : st.inConflict = false) :
    applyStep t st l = { st with out := st.out ++ [outsideEmit t l] } := by
  simp only [markerFree, Bool.and_eq_true, Bool.not_eq_true'] at hm
  obtain ⟨⟨h1, h2⟩, h3⟩ := hm
  simp [applyStep, h1, h2, h3, hc]

theorem foldl_apply_outside (lines : List String) (t : Table) (st : ApplyState)
    (hm : ∀ l ∈ lines, markerFree l = true) (hc : st.inConflict = false) :
    lines.foldl (applyStep t) st =
      { st with out := st.out ++ lines.map (outsideEmit t) } := by
  induction lines generalizing st with
  | nil => simp
  | cons l ls ih =>
    rw [List.foldl_cons, applyStep_outside t st (hm l (List.mem_cons_self l ls)) hc]
    rw [ih ({ st with out := st.out ++ [outsideEmit t l] })
      (fun x hx => hm x (List.mem_cons_of_mem l hx)) hc]
    simp

theorem applyStep_noclose_inconflict {l : String} (t : Table) (st : ApplyState)
    (h : pfxS ">>>>>>>" (trimS l) = false) (hc : st.inConflict = true) :
    (applyStep t st l).out = st.out ∧ (applyStep t st l).inConflict = true := by
  unfold applyStep
  by_cases ho : pfxS "<<<<<<<" (trimS l) = true
  · rw [if_pos ho]; exact ⟨rfl, rfl⟩
  · rw [if_neg ho, h]
    simp only [Bool.false_eq_true, if_false]
    by_cases hd : pfxS "=======" (trimS l) = true
    · rw [if_pos hd]; exact ⟨rfl, hc⟩
    · rw [if_neg hd, hc]
      simp only [if_true]
      cases regionEmit t (trimS l) with
      | none => exact ⟨rfl, hc⟩
      | some s => exact ⟨rfl, rfl⟩

theorem foldl_apply_noclose (lines : List String) (t : Table) (st : ApplyState)
    (h : ∀ l ∈ lines, pfxS ">>>>>>>" (trimS l) = false) (hc : st.inConflict = true) :
    (lines.foldl (applyStep t) st).out = st.out := by
  induction lines generalizing st with
  | nil => rfl
  | cons l ls ih =>
    rw [List.foldl_cons]
    have hstep := applyStep_noclose_inconflict t st (h l (List.mem_cons_self l ls)) hc
    rw [ih _ (fun x hx => h x (List.mem_cons_of_mem l hx)) hstep.2, hstep.1]

theorem detectStep_inHead_nodiv {l : String} (st : ScanState)
    (hd : pfxS "=======" (trimS l) = false) (hh : st.inHead = true) :
    (detectStep st l).inHead = true := by
  unfold detectStep
  by_cases h0 : trimS l = ""
  · rw [if_pos h0]; exact hh
  · rw [if_neg h0]
    by_cases ho : pfxS "<<<<<<<" (trimS l) = true
    · rw [if_pos ho]
    · rw [if_neg ho, hd]
      simp only [Bool.false_eq_true, if_false]
      by_cases hcl : pfxS ">>>>>>>" (trimS l) = true
      · rw [if_pos hcl]
        by_cases hic : st.inConflict = true
        · rw [if_pos hic]
          cases st.current <;> exact hh
        · rw [if_neg hic]; exact hh
      · rw [if_neg hcl]
        by_cases hr : (st.inConflict && !pfxS "<" (trimS l) &&
            !pfxS "=" (trimS l) && !pfxS ">" (trimS l)) = true
        · rw [if_pos hr]
          cases parseIssue (trimS l) with
          | none => exact hh
          | some issue => cases st.current <;> exact hh
        · rw [if_neg hr]; exact hh

/-! ## Resolver lemmas -/

theorem pass1I_keep (is : List Issue) (s : RState) :
    ∀ r ∈ (pass1I s is).2, r ∈ s.2 ∨ r.action = "keep" := by
  induction is generalizing s with
  | nil => exact fun r hr => Or.inl hr
  | cons i is ih =>
    intro r hr
    rcases ih _ r hr with h | h
    · rcases List.mem_append.1 h with h' | h'
      · exact Or.inl h'
      · right
        rw [List.mem_singleton.1 h']
    · exact Or.inr h

theorem pass1B_keep (cbs : List ConflictBlock) (s : RState) :
    ∀ r ∈ (pass1B s cbs).2, r ∈ s.2 ∨ r.action = "keep" := by
  induction cbs generalizing s with
  | nil => exact fun r hr => Or.inl hr
  | cons cb cbs ih =>
    intro r hr
    rcases ih _ r hr with h | h
    · exact pass1I_keep cb.headIssues s r h
    · exact Or.inr h

theorem pass2Issue_spec (store : Option (List Issue)) (s : RState) (i : Issue)
    (s' : RState) (h : pass2Issue store s i = Except.ok s') :
    ∀ r ∈ s'.2, r ∈ s.2 ∨ r.action = "keep" ∨
      (r.action = "remap" ∧ getNextAvailableID store = Except.ok r.newID) := by
  unfold pass2Issue at h
  by_cases hm : i.id ∈ s.1
  · rw [if_pos hm] at h
    cases hg : getNextAvailableID store with
    | error e => rw [hg] at h; cases h
    | ok nid =>
      rw [hg] at h
      injection h with h
      subst h
      intro r hr
      rcases List.mem_append.1 hr with h' | h'
      · exact Or.inl h'
      · rw [List.mem_singleton.1 h']
        exact Or.inr (Or.inr ⟨rfl, rfl⟩)
  · rw [if_neg hm] at h
    injection h with h
    subst h
    intro r hr
    rcases List.mem_append.1 hr with h' | h'
    · exact Or.inl h'
    · rw [List.mem_singleton.1 h']
      exact Or.inr (Or.inl rfl)

theorem pass2I_spec (store : Option (List Issue)) (is : List Issue) (s s' : RState)
    (h : pass2I store s is = Except.ok s') :
    ∀ r ∈ s'.2, r ∈ s.2 ∨ r.action = "keep" ∨
      (r.action = "remap" ∧ getNextAvailableID store = Except.ok r.newID) := by
  induction is generalizing s with
  | nil =>
    unfold pass2I at h
    injection h with h
    subst h
    exact fun r hr => Or.inl hr
  | cons i is ih =>
    unfold pass2I at h
    cases hstep : pass2Issue store s i with
    | error e => rw [hstep] at h; cases h
    | ok s1 =>
      rw [hstep] at h
      intro r hr
      rcases ih _ h r hr with h' | h' | h'
      · rcases pass2Issue_spec store s i s1 hstep r h' with h2 | h2 | h2
        · exact Or.inl h2
        · exact Or.inr (Or.inl h2)
        · exact Or.inr (Or.inr h2)
      · exact Or.inr (Or.inl h')
      · exact Or.inr (Or.inr h')

theorem pass2B_spec (store : Option (List Issue)) (cbs : List ConflictBlock)
    (s s' : RState) (h : pass2B store s cbs = Except.ok s') :
    ∀ r ∈ s'.2, r ∈ s.2 ∨ r.action = "keep" ∨
      (r.action = "remap" ∧ getNextAvailableID store = Except.ok r.newID) := by
  induction cbs generalizing s with
  | nil =>
    unfold pass2B at h
    injection h with h
    subst h
    exact fun r hr => Or.inl hr
  | cons cb cbs ih =>
    unfold pass2B at h
    cases hstep : pass2I store s cb.baseIssues with
    | error e => rw [hstep] at h; cases h
    | ok s1 =>
      rw [hstep] at h
      intro r hr
      rcases ih _ h r hr with h' | h' | h'
      · rcases pass2I_spec store cb.baseIssues s s1 hstep r h' with h2 | h2 | h2
        · exact Or.inl h2
        · exact Or.inr (Or.inl h2)
        · exact Or.inr (Or.inr h2)
      · exact Or.inr (Or.inl h')
      · exact Or.inr (Or.inr h')

/-- Every "remap" resolution of a successful run carries the one id the
identifier source returns for this store. -/
theorem mech_remap_newID (store : Option (List Issue)) (conflicts : List ConflictBlock)
    (rs : List Resolution) (h : resolveConflictsMechanical store conflicts = Except.ok rs) :
    ∀ r ∈ rs, r.action = "remap" → getNextAvailableID store = Except.ok r.newID := by
  have h' : (match pass2B store (pass1B ([], []) conflicts) conflicts with
      | Except.error e => (Except.error e : Except String (List Resolution))
      | Except.ok s2 => Except.ok s2.2) = Except.ok rs := h
  cases h2 : pass2B store (pass1B ([], []) conflicts) conflicts with
  | error e => rw [h2] at h'; cases h'
  | ok s2 =>
    rw [h2] at h'
    injection h' with h'
    subst h'
    intro r hr hremap
    rcases pass2B_spec store conflicts _ s2 h2 r hr with h' | h' | h'
    · rcases pass1B_keep conflicts ([], []) r h' with h'' | h''
      · cases h''
      · rw [hremap] at h''
        exact absurd h'' (by decide)
    · rw [hremap] at h'
      exact absurd h' (by decide)
    · exact h'.2

/-- The resolver of an empty conflict list succeeds with no resolutions. -/
theorem mech_nil (store : Option (List Issue)) :
    resolveConflictsMechanical store [] = Except.ok [] := rfl

/-! ## Settled claims -/

/-- Decidable equality of resolver results, used to evaluate them in closed
theorems. -/
instance {ε α : Type} [DecidableEq ε] [DecidableEq α] : DecidableEq (Except ε α) :=
  fun a b =>
    match a, b with
    | Except.ok x, Except.ok y =>
      if h : x = y then isTrue (by rw [h]) else isFalse (by simp [h])
    | Except.error e, Except.error e' =>
      if h : e = e' then isTrue (by rw [h]) else isFalse (by simp [h])
    | Except.ok _, Except.error _ => isFalse (by simp)
    | Except.error _, Except.ok _ => isFalse (by simp)

/-- Claim C1 — the claim says a run with N collisions allocates N pairwise
distinct fresh ids.  The code violates it: `getNextAvailableID` re-scans the
unchanged store on every call, so both colliding base records of this run are
remapped to the same fresh id `bd-3`, and the reservation of the first fresh
id does not influence the second allocation.  This theorem evaluates the
resolver at the failing input. -/
theorem C1_code_bug_eval :
    resolveConflictsMechanical (some [mkIssue "bd-2"]) [twoCollisionBlock] =
      Except.ok
        [{ action := "keep", issueID := "bd-1", reason := "HEAD version" },
         { action := "keep", issueID := "bd-2", reason := "HEAD version" },
         { action := "remap", oldID := "bd-1", newID := "bd-3",
           reason := "ID bd-1 exists in both HEAD and BASE" },
         { action := "remap", oldID := "bd-2", newID := "bd-3",
           reason := "ID bd-2 exists in both HEAD and BASE" }] := by
  decide

/-- Claim C2 — the claim says the head record keeps its id and only the base
record is renamed.  The code violates it: `applyResolutions` applies the remap
table to every record inside a conflict region without distinguishing sides,
so the head record's id `bd-1` is rewritten to `bd-6` exactly like the base
record's, and no occurrence of `bd-1` survives anywhere in the output.  This
theorem evaluates the full resolve-and-apply pipeline at the failing input. -/
theorem C2_code_bug_eval :
    resolveConflictsRun (some [mkIssue "bd-5"]) collisionFile =
        serializeIssue { id := "bd-6", title := "H" } ++ "\n" ++
          serializeIssue { id := "bd-6", title := "B" } ∧
      containsSubS "bd-1" (resolveConflictsRun (some [mkIssue "bd-5"]) collisionFile) =
        false := by
  constructor
  · decide
  · decide

/-- Claim C3, counterexample — the claim says ids that were not remapped,
including ids of which a remapped old id is a literal substring, are not
corrupted.  Under the table remapping only `bd-1` to `bd-6`, the free-text
mention of the unmapped id `bd-10` is corrupted to `bd-60` by the literal
substring substitution of `remapTextReferences`. -/
theorem C3_counterexample :
    (rewriteRefs [("bd-1", "bd-6")] { mkIssue "bd-7" with notes := "see bd-10" }).notes =
        "see bd-60" ∧
      lookupTab [("bd-1", "bd-6")] "bd-10" = none := by
  constructor
  · decide
  · decide

/-- Claim C4, counterexample — the claim says no line outside every conflict
region is ever dropped.  On a file with no conflict region at all, the line
`=======` lies outside every region, yet the reconstructor drops it: the
divider test is checked before the region state. -/
theorem C4_counterexample :
    detectConflicts ["a", "=======", "b"] = [] ∧
      applyResolutions [] ["a", "=======", "b"] = ["a", "b"] := by
  constructor
  · decide
  · decide

/-- Claim C5, counterexample — the claim says fields outside the recognized
schema survive re-serialization.  A record line carrying the unrecognized
field `custom` parses, is re-serialized inside a region under an empty remap
table, and the output line no longer mentions `custom` at all. -/
theorem C5_counterexample :
    regionEmit [] "\x7b\"id\":\"bd-9\",\"custom\":\"keep\"\x7d" =
        some (serializeIssue (mkIssue "bd-9")) ∧
      containsSubS "custom" (serializeIssue (mkIssue "bd-9")) = false := by
  constructor
  · decide
  · decide

/-- Claim C7, counterexample — the claim says a line that merely begins with
the divider characters but is not exactly `=======` is treated as ordinary
content.  The scanner tests the divider by string prefix on the trimmed line,
so the line `=======extra` switches the region to the base side: the record
after it lands in `baseIssues`, where the claim demands it stay in
`headIssues`. -/
theorem C7_counterexample :
    detectConflicts
        ["<<<<<<< HEAD", "\x7b\"id\":\"a-1\"\x7d", "=======extra",
         "\x7b\"id\":\"b-1\"\x7d", ">>>>>>> o"] =
      [{ headIssues := [mkIssue "a-1"]
         baseIssues := [mkIssue "b-1"]
         lineStart := 1
         lineEnd := 5 }] := by
  decide

/-- Claim C9 — on a file none of whose lines begins (after trimming) with a
conflict marker, detection returns zero regions and the resolve-and-apply
entry point returns the content byte-for-byte unchanged (it returns before
any write when no region was detected). -/
theorem C9_noop_idempotence (store : Option (List Issue)) (content : String)
    (h : ∀ l ∈ splitLinesS content, markerFree l = true) :
    detectConflicts (splitLinesS content) = [] ∧
      resolveConflictsRun store content = content := by
  have hd : detectConflicts (splitLinesS content) = [] :=
    (foldl_detect_plain (splitLinesS content) {} h rfl).1
  refine ⟨hd, ?_⟩
  simp only [resolveConflictsRun, hd]
  simp

/-- Witness for C9 at a concrete two-line file with no markers. -/
theorem C9_witness :
    (∀ l ∈ splitLinesS "hello\nworld", markerFree l = true) ∧
      (detectConflicts (splitLinesS "hello\nworld") = [] ∧
        resolveConflictsRun none "hello\nworld" = "hello\nworld") :=
  ⟨by decide, C9_noop_idempotence none "hello\nworld" (by decide)⟩

/-- Claim C10 — an open marker line with no later close marker: the scanner
seals no region at all, and the reconstructor's output for the whole file is
exactly its output for the lines before the open marker; the open marker, the
buffered region content and every following line are silently absent. -/
theorem C10_unclosed_region_dropped (rs : List Resolution) (pre : List String)
    (op : String) (rest : List String)
    (hpre : ∀ l ∈ pre, markerFree l = true)
    (hop : pfxS "<<<<<<<" (trimS op) = true)
    (hrest : ∀ l ∈ rest, pfxS ">>>>>>>" (trimS l) = false) :
    detectConflicts (pre ++ op :: rest) = [] ∧
      applyResolutions rs (pre ++ op :: rest) = applyResolutions rs pre := by
  constructor
  · unfold detectConflicts
    rw [List.foldl_append, List.foldl_cons]
    have hp := foldl_detect_plain pre {} hpre rfl
    rw [foldl_detect_noclose rest _ hrest]
    have hopstep : (detectStep (pre.foldl detectStep {}) op).conflicts =
        (pre.foldl detectStep {}).conflicts := by
      unfold detectStep
      rw [if_neg (by intro he; rw [he] at hop; exact absurd hop (by decide)), if_pos hop]
    rw [hopstep, hp.1]
  · unfold applyResolutions
    rw [List.foldl_append, List.foldl_cons]
    set t := buildRemapTable rs
    have hp := foldl_apply_outside pre t {} hpre rfl
    have hopstep : applyStep t (pre.foldl (applyStep t) {}) op =
        { pre.foldl (applyStep t) {} with inConflict := true, buf := [] } := by
      unfold applyStep
      rw [if_pos hop]
    rw [hopstep]
    rw [foldl_apply_noclose rest t _ hrest rfl]

/-- Witness for C10: one outside line, an unclosed open marker, one record
line after it; the record line is absent from the output. -/
theorem C10_witness :
    ((∀ l ∈ ["keep me"], markerFree l = true) ∧
        pfxS "<<<<<<<" (trimS "<<<<<<< HEAD") = true ∧
        (∀ l ∈ ["\x7b\"id\":\"bd-1\"\x7d"], pfxS ">>>>>>>" (trimS l) = false)) ∧
      (detectConflicts (["keep me"] ++ "<<<<<<< HEAD" :: ["\x7b\"id\":\"bd-1\"\x7d"]) = [] ∧
        applyResolutions [] (["keep me"] ++ "<<<<<<< HEAD" :: ["\x7b\"id\":\"bd-1\"\x7d"]) =
          applyResolutions [] ["keep me"]) :=
  ⟨⟨by decide, by decide, by decide⟩,
    C10_unclosed_region_dropped [] ["keep me"] "<<<<<<< HEAD" ["\x7b\"id\":\"bd-1\"\x7d"]
      (by decide) (by decide) (by decide)⟩

/-- Claim C4, amended — a line processed outside a region whose trimmed form
begins with no conflict marker is never dropped: the step emits exactly one
line for it and leaves the rest of the state unchanged.  That line is the
original raw line when the line does not parse as a record, or when the
rewrite flag is clear (the code sets the flag on any remap-table hit on a
dependency target — even one that does not change the target — and on any
change to a free-text field); it is the re-serialized rewritten record when
the flag is set.  Outside lines whose trimmed form does begin with a marker
are dropped or swallowed, see the counterexample. -/
theorem C4_amended_frame (t : Table) (st : ApplyState) (line : String)
    (hm : markerFree line = true) (hc : st.inConflict = false) :
    applyStep t st line = { st with out := st.out ++ [outsideEmit t line] } ∧
      (parseIssue (trimS line) = none → outsideEmit t line = line) ∧
      (∀ i, parseIssue (trimS line) = some i →
        outsideEmit t line =
          (if (rewriteOutside t i).2 then serializeIssue (rewriteOutside t i).1
           else line)) := by
  refine ⟨applyStep_outside t st hm hc, ?_, fun i hp => outsideEmit_parsed t line hp⟩
  intro hp
  unfold outsideEmit
  by_cases hcnd : (trimS line ≠ "" && !pfxS "<" (trimS line) &&
      !pfxS "=" (trimS line) && !pfxS ">" (trimS line)) = true
  · rw [if_pos hcnd, hp]
  · rw [if_neg hcnd]

/-- Witness for C4 at a marker-free outside line that does not parse as a
record: it passes through verbatim. -/
theorem C4_frame_witness :
    (markerFree "keep this line" = true ∧
        ({} : ApplyState).inConflict = false ∧
        parseIssue (trimS "keep this line") = none) ∧
      applyStep [] {} "keep this line" =
        { out := ["keep this line"], buf := [], inConflict := false } := by
  refine ⟨⟨by decide, rfl, by decide⟩, ?_⟩
  have h := C4_amended_frame [] {} "keep this line" (by decide) rfl
  rw [h.1, h.2.1 (by decide)]
  rfl

/-- Claim C7, amended — while the scanner is inside a region on the head
side, a line switches it to the base side exactly when the line's trimmed
form begins with `=======` (a prefix test, not an exact match, see the
counterexample).  A divider-prefixed line seen outside a region leaves the
scanner state unchanged apart from the line counter — but the reconstructor
drops every divider-prefixed line from the output, inside or outside a
region, rather than passing it through. -/
theorem C7_amended_divider (st stOut : ScanState) (t : Table) (ast : ApplyState)
    (line : String) :
    (st.inConflict = true → st.inHead = true →
      (((detectStep st line).inHead = false) ↔ pfxS "=======" (trimS line) = true)) ∧
      (stOut.inConflict = false → pfxS "=======" (trimS line) = true →
        detectStep stOut line = { stOut with lineNum := stOut.lineNum + 1 }) ∧
      (pfxS "=======" (trimS line) = true → applyStep t ast line = ast) := by
  refine ⟨fun hc hh => ⟨?_, ?_⟩, fun hc hd => ?_, fun hd => ?_⟩
  · intro hstep
    by_cases hd : pfxS "=======" (trimS line) = true
    · exact hd
    · have := detectStep_inHead_nodiv st (Bool.not_eq_true _ ▸ hd :
        pfxS "=======" (trimS line) = false) hh
      rw [hstep] at this
      cases this
  · intro hd
    unfold detectStep
    rw [if_neg (div_ne_empty hd),
      if_neg (by rw [div_not_open hd]; exact Bool.false_ne_true), if_pos hd,
      if_pos hc]
  · unfold detectStep
    rw [if_neg (div_ne_empty hd),
      if_neg (by rw [div_not_open hd]; exact Bool.false_ne_true), if_pos hd,
      if_neg (by rw [hc]; exact Bool.false_ne_true)]
  · unfold applyStep
    rw [if_neg (by rw [div_not_open hd]; exact Bool.false_ne_true),
      if_neg (by rw [div_not_close hd]; exact Bool.false_ne_true), if_pos hd]

/-- Witness for C7: the exact divider line switches a head-side scanner state
to the base side, leaves an outside scanner state unchanged apart from the
line counter, and is dropped by the reconstructor. -/
theorem C7_divider_witness :
    (({ inConflict := true, inHead := true } : ScanState).inConflict = true ∧
        pfxS "=======" (trimS "=======") = true) ∧
      (detectStep { inConflict := true, inHead := true } "=======").inHead = false ∧
        detectStep {} "=======" = { lineNum := 1 } ∧
        applyStep [] {} "=======" = {} := by
  have h := C7_amended_divider { inConflict := true, inHead := true } {} [] {} "======="
  refine ⟨⟨rfl, by decide⟩, (h.1 rfl rfl).mpr (by decide), ?_, h.2.2 (by decide)⟩
  rw [h.2.1 rfl (by decide)]

/-- Claim C5, amended — the replacement content a re-serialized record line
contributes is a function of its parse alone: two lines with the same parse
produce the same output line, so everything the typed decode discards —
every field outside the recognized schema — is lost whenever a record is
re-serialized, and survives only on lines passed through verbatim. -/
theorem C5_amended_reserialization (t : Table) (l1 l2 : String)
    (h : parseIssue l1 = parseIssue l2) :
    regionEmit t l1 = regionEmit t l2 := by
  rw [regionEmit_eq_map, regionEmit_eq_map, h]

/-- Witness for C5: a record line with an unrecognized `extra` field parses
identically to the line without it, and both contribute the same replacement
content. -/
theorem C5_reserialization_witness :
    parseIssue "\x7b\"id\":\"bd-3\",\"extra\":\"e\"\x7d" =
        parseIssue "\x7b\"id\":\"bd-3\"\x7d" ∧
      regionEmit [] "\x7b\"id\":\"bd-3\",\"extra\":\"e\"\x7d" =
        regionEmit [] "\x7b\"id\":\"bd-3\"\x7d" :=
  ⟨by decide, C5_amended_reserialization [] _ _ (by decide)⟩

/-- Claim C3, amended — referential integrity holds for dependency edges,
which are rewritten by exact whole-id lookup: an edge whose target is a
remapped old id is rewritten to the new id, and an edge whose target is not
in the table is unchanged.  Free-text fields, by contrast, are rewritten by
literal substring substitution (`remapTextReferences`), which replaces every
occurrence of a remapped old id but can corrupt an unmapped id of which a
remapped old id is a literal substring — see the counterexample. -/
theorem C3_amended_dep_integrity (t : Table) (i : Issue) (d : Dependency)
    (hd : d ∈ i.dependencies) :
    (∀ n, lookupTab t d.dependsOnID = some n →
        { d with dependsOnID := n } ∈ (rewriteRefs t i).dependencies) ∧
      (lookupTab t d.dependsOnID = none → d ∈ (rewriteRefs t i).dependencies) := by
  constructor
  · intro n hn
    have hrw : rewriteDep t d = { d with dependsOnID := n } := by
      unfold rewriteDep
      rw [hn]
    rw [← hrw]
    exact List.mem_map_of_mem (rewriteDep t) hd
  · intro hn
    have hrw : rewriteDep t d = d := by
      unfold rewriteDep
      rw [hn]
    have := List.mem_map_of_mem (rewriteDep t) hd
    rw [hrw] at this
    exact this

/-- An edge on `bd-1`, used by the witness for C3. -/
def depA : Dependency := { dependsOnID := "bd-1", relationType := "blocks" }

/-- An edge on `bd-2`, used by the witness for C3. -/
def depB : Dependency := { dependsOnID := "bd-2", relationType := "blocks" }

/-- A record carrying the two edges above, used by the witness for C3. -/
def issueAB : Issue := { mkIssue "x-1" with dependencies := [depA, depB] }

/-- Witness for C3: under the table remapping `bd-1` to `bd-6`, a record's
edge on `bd-1` is rewritten to `bd-6` and its edge on `bd-2` is unchanged. -/
theorem C3_dep_integrity_witness :
    (depA ∈ issueAB.dependencies ∧
        lookupTab [("bd-1", "bd-6")] depA.dependsOnID = some "bd-6" ∧
        lookupTab [("bd-1", "bd-6")] depB.dependsOnID = none) ∧
      ({ depA with dependsOnID := "bd-6" } ∈
          (rewriteRefs [("bd-1", "bd-6")] issueAB).dependencies ∧
        depB ∈ (rewriteRefs [("bd-1", "bd-6")] issueAB).dependencies) := by
  refine ⟨⟨by decide, by decide, by decide⟩, ?_, ?_⟩
  · exact (C3_amended_dep_integrity [("bd-1", "bd-6")] issueAB depA
      (by decide)).1 "bd-6" (by decide)
  · exact (C3_amended_dep_integrity [("bd-1", "bd-6")] issueAB depB
      (by decide)).2 (by decide)

/-- Claim C6 — within one resolution run the remap table is monotone: any two
"remap" resolutions of a successful run that share an old id carry the same
new id, so the map assignments of `applyResolutions` never overwrite an entry
with a different value.  (The code achieves this only because every remap of a
run carries the one id the unchanged store returns on every query — the very
behaviour that breaks claim C1.) -/
theorem C6_remap_table_monotone (store : Option (List Issue))
    (conflicts : List ConflictBlock) (rs : List Resolution)
    (h : resolveConflictsMechanical store conflicts = Except.ok rs) :
    ∀ r1 ∈ rs, ∀ r2 ∈ rs, r1.action = "remap" → r2.action = "remap" →
      r1.oldID = r2.oldID → r1.newID = r2.newID := by
  intro r1 h1 r2 h2 hr1 hr2 _
  have e1 := mech_remap_newID store conflicts rs h r1 h1 hr1
  have e2 := mech_remap_newID store conflicts rs h r2 h2 hr2
  rw [e1] at e2
  exact Except.ok.inj e2

/-- Witness for C6: a run whose base side carries the id `bd-1` twice emits
two remap resolutions for the same old id, and both carry the same new id. -/
theorem C6_monotone_witness :
    resolveConflictsMechanical (some [mkIssue "bd-2"])
        [{ headIssues := [mkIssue "bd-1"]
           baseIssues := [mkIssue "bd-1", mkIssue "bd-1"]
           lineStart := 1
           lineEnd := 5 }] =
      Except.ok
        [{ action := "keep", issueID := "bd-1", reason := "HEAD version" },
         { action := "remap", oldID := "bd-1", newID := "bd-3",
           reason := "ID bd-1 exists in both HEAD and BASE" },
         { action := "remap", oldID := "bd-1", newID := "bd-3",
           reason := "ID bd-1 exists in both HEAD and BASE" }] ∧
      ({ action := "remap", oldID := "bd-1", newID := "bd-3",
         reason := "ID bd-1 exists in both HEAD and BASE" } : Resolution).newID =
        ({ action := "remap", oldID := "bd-1", newID := "bd-3",
           reason := "ID bd-1 exists in both HEAD and BASE" } : Resolution).newID := by
  refine ⟨by decide, ?_⟩
  exact C6_remap_table_monotone (some [mkIssue "bd-2"])
    [{ headIssues := [mkIssue "bd-1"]
       baseIssues := [mkIssue "bd-1", mkIssue "bd-1"]
       lineStart := 1
       lineEnd := 5 }]
    [{ action := "keep", issueID := "bd-1", reason := "HEAD version" },
     { action := "remap", oldID := "bd-1", newID := "bd-3",
       reason := "ID bd-1 exists in both HEAD and BASE" },
     { action := "remap", oldID := "bd-1", newID := "bd-3",
       reason := "ID bd-1 exists in both HEAD and BASE" }]
    (by decide) _ (by decide) _ (by decide) (by decide) (by decide) (by decide)

/-- Claim C8 — when the identifier source fails while the resolutions of the
detected conflicts are being computed, the resolve-and-apply entry point
returns the file content byte-for-byte unchanged: the command exits on the
resolver's error before reconstructing or writing anything, and the failed
run exposes no resolution list at all. -/
theorem C8_alloc_failure_no_mutation (store : Option (List Issue))
    (content : String) (e : String)
    (h : resolveConflictsMechanical store (detectConflicts (splitLinesS content)) =
      Except.error e) :
    resolveConflictsRun store content = content := by
  by_cases hc : detectConflicts (splitLinesS content) = []
  · rw [hc, mech_nil] at h
    cases h
  · simp only [resolveConflictsRun]
    rw [if_neg hc, h]

/-- Witness for C8: on a conflicted file whose head and base share `bd-1`,
the unavailable store makes the resolver fail and the content is returned
unchanged. -/
theorem C8_witness :
    resolveConflictsMechanical none (detectConflicts (splitLinesS collisionFile)) =
        Except.error "failed to get next ID: store not initialized" ∧
      resolveConflictsRun none collisionFile = collisionFile :=
  ⟨by decide,
    C8_alloc_failure_no_mutation none collisionFile
      "failed to get next ID: store not initialized" (by decide)⟩

end Beads
